import Mathlib

/-!
Shallow embedding of `src/ace-web-component.js` (the `<ace-editor>` web
component: singleton Ace loader, id registry, content resolution, attribute
synchronization) together with proofs of the specification claims.

JS strings are modelled as Lean `String`; JS `null`/`undefined`-able strings
as `Option String`; the DOM id lookup and the module-level id registry as
finite sets of strings; the cached loader promise as an optional promise
identity.  Definitions are translated from the source; definitions whose
name contains `Spec` or `Claim` restate the specification's words for
comparison with the code-level definition.
-/

namespace AceWC
/-- Characters matched by the JavaScript regexp class `\s`
(ECMA-262 WhiteSpace ∪ LineTerminator).  Used by the dedent pass of
`initializeEditor` (`/^\s*$/` and `/^\s+/`, lines 505-532). -/
def jsWhitespace (c : Char) : Bool :=
  c = ' ' || c = '\t' || c = '\n' || c.val = 11 || c.val = 12 || c = '\r' ||
  c.val = 0xa0 || c.val = 0x1680 || (0x2000 ≤ c.val && c.val ≤ 0x200a) ||
  c.val = 0x2028 || c.val = 0x2029 || c.val = 0x202f || c.val = 0x205f ||
  c.val = 0x3000 || c.val = 0xfeff

/-! ### `unescapeHtmlEntities` (src/ace-web-component.js lines 45-57)

`str.replace(/&(?:lt|gt|amp|quot|#39|#x27|#x2F);/g, (m) => htmlEntities[m] || m)`
scans the string left to right; at each position the alternation matches at
most one of the seven tokens (they are mutually prefix-incompatible), the
matched token is replaced by its `htmlEntities` table entry — and the table
maps only `"&lt;"`, every other row being commented out — while the fallback
`|| m` leaves the other tokens as they were. -/

/-- The seven entity tokens recognized by the regexp alternation. -/
def entityTokens : List (List Char) :=
  [['&', 'l', 't', ';'], ['&', 'g', 't', ';'], ['&', 'a', 'm', 'p', ';'],
   ['&', 'q', 'u', 'o', 't', ';'], ['&', '#', '3', '9', ';'],
   ['&', '#', 'x', '2', '7', ';'], ['&', '#', 'x', '2', 'F', ';']]

/-- `(match) => htmlEntities[match] || match`: only `&lt;` has a table
entry (`<`); every other matched token falls back to itself. -/
def entityReplacement (tok : List Char) : List Char :=
  if tok = ['&', 'l', 't', ';'] then ['<'] else tok

/-- Does one of the seven alternation tokens match at the head of `l`? -/
def findTok (l : List Char) : Option (List Char) :=
  entityTokens.find? (fun t => l.take t.length = t)

/-- The global-regexp replacement loop: at each position either one token
matches (emit its replacement, continue after it) or no token matches (emit
the character, advance one).  The fuel argument (instantiated with the
length of the list, an upper bound on the number of steps) only makes the
recursion structural. -/
def regexScanFuel : Nat → List Char → List Char
  | _, [] => []
  | 0, l => l
  | fuel+1, c :: rest =>
    match findTok (c :: rest) with
    | some t => entityReplacement t ++ regexScanFuel fuel ((c :: rest).drop t.length)
    | none => c :: regexScanFuel fuel rest

/-- `unescapeHtmlEntities` from the source. -/
def unescapeHtmlEntities (s : String) : String :=
  ⟨regexScanFuel s.data.length s.data⟩

/-- Replacement of every occurrence of `&lt;` by `<`, leaving all other
character sequences unchanged — the behaviour the specification ascribes to
the default entity decoder. -/
def replaceLtScan : List Char → List Char
  | '&' :: 'l' :: 't' :: ';' :: rest => '<' :: replaceLtScan rest
  | c :: rest => c :: replaceLtScan rest
  | [] => []

/-- String-level version of `replaceLtScan`. -/
def replaceLtOnly (s : String) : String :=
  ⟨replaceLtScan s.data⟩

/-! ### The dedent pass of `initializeEditor` (lines 505-532)

```
let diff = Number.MAX_SAFE_INTEGER;
let tmp = this.initialContent.split("\n");
tmp.forEach((line) => {
  if (!/^\s*$/.test(line)) {
    const d = line.length - line.replace(/^\s+/, "").length;
    if (d < diff) diff = d;
  }
});
if (diff !== Number.MAX_SAFE_INTEGER && diff > 0) {
  tmp = tmp.map((line) => line.substring(diff));
  this.initialContent = tmp.join("\n");
}
```
-/

def MAX_SAFE_INTEGER : Nat := 9007199254740991

/-- `s.split("\n")` of JavaScript, on character lists: splitting on the
newline character, keeping empty segments (`"".split` gives `[""]`). -/
def splitOnNl : List Char → List (List Char)
  | [] => [[]]
  | c :: rest =>
    if c = '\n' then [] :: splitOnNl rest
    else
      match splitOnNl rest with
      | [] => [[c]]
      | l :: ls => (c :: l) :: ls

/-- `tmp.join("\n")`: concatenate the lines with `'\n'` between them. -/
def joinNl : List (List Char) → List Char
  | [] => []
  | [l] => l
  | l :: ls => l ++ '\n' :: joinNl ls

/-- `/^\s*$/.test(line)`: the line consists of whitespace only. -/
def isBlankLine (line : List Char) : Bool := line.all jsWhitespace

/-- `line.length - line.replace(/^\s+/, "").length`: the number of leading
whitespace characters of the line. -/
def leadingWsCount (line : List Char) : Nat := (line.takeWhile jsWhitespace).length

/-- The `forEach` loop computing the minimum indentation `diff`, started at
`Number.MAX_SAFE_INTEGER` and updated (`if (d < diff) diff = d`) only on
non-blank lines. -/
def dedentDiff (lines : List (List Char)) : Nat :=
  lines.foldl
    (fun diff line =>
      if !isBlankLine line then
        (if leadingWsCount line < diff then leadingWsCount line else diff)
      else diff)
    MAX_SAFE_INTEGER

/-- The whole dedent pass: split on `"\n"`, compute `diff`, and when the
sentinel was beaten and is positive, drop `diff` characters
(`line.substring(diff)`, clamped) from every line and re-join. -/
def dedent (s : String) : String :=
  let tmp := splitOnNl s.data
  let diff := dedentDiff tmp
  if diff ≠ MAX_SAFE_INTEGER ∧ 0 < diff then
    ⟨joinNl (tmp.map (fun line => line.drop diff))⟩
  else s

/-- The minimum leading-whitespace length over the non-blank lines, as the
specification describes it (`none` when every line is blank). -/
def minIndentSpec : List (List Char) → Option Nat
  | [] => none
  | line :: rest =>
    if isBlankLine line then minIndentSpec rest
    else
      match minIndentSpec rest with
      | none => some (leadingWsCount line)
      | some m => some (min (leadingWsCount line) m)

/-- The dedent pass exactly as the claim words it: remove the minimum
leading-whitespace length (over non-blank lines) from every line, except
that a blank line shorter than that minimum is left as-is; all-blank or
empty text is unchanged. -/
def dedentClaim (s : String) : String :=
  let lines := splitOnNl s.data
  match minIndentSpec lines with
  | none => s
  | some d =>
      ⟨joinNl (lines.map (fun line =>
        if isBlankLine line ∧ line.length < d then line else line.drop d))⟩

/-- The amended dedent contract: remove `min(d, line.length)` leading
characters from every line — blank lines included, so a blank line shorter
than the minimum becomes empty — where `d` is the minimum leading-whitespace
length over non-blank lines; when there is no non-blank line or the minimum
is zero the text is returned unchanged. -/
def dedentSpecAmended (s : String) : String :=
  let lines := splitOnNl s.data
  match minIndentSpec lines with
  | none => s
  | some 0 => s
  | some d => ⟨joinNl (lines.map (fun line => line.drop d))⟩

/-! ### The singleton loader `loadAceEditor` (lines 87-127)

The module-level `aceEditorPromise` caches the promise; on a cache miss the
promise executor runs synchronously, creating one `<script>` element and
appending it to `document.head`, then the promise is cached and returned.
Promises are modelled by identity (a number); `scriptsAppended` counts the
script elements appended to the document over the process lifetime. -/

structure LoaderState where
  aceEditorPromise : Option Nat
  scriptsAppended : Nat
  nextPromiseId : Nat
  deriving DecidableEq, Repr

/-- `loadAceEditor`: return the cached promise if present, otherwise create
the promise (appending the script element) and cache it. -/
def loadAceEditor (st : LoaderState) : Nat × LoaderState :=
  match st.aceEditorPromise with
  | some p => (p, st)
  | none =>
      let p := st.nextPromiseId
      (p, { aceEditorPromise := some p, scriptsAppended := st.scriptsAppended + 1,
            nextPromiseId := st.nextPromiseId + 1 })

/-- `n` consecutive calls of `loadAceEditor` within one synchronous turn
(no other transition interleaves), collecting the returned promises. -/
def callLoader : LoaderState → Nat → List Nat × LoaderState
  | st, 0 => ([], st)
  | st, n+1 =>
      let r1 := loadAceEditor st
      let r2 := callLoader r1.2 n
      (r1.1 :: r2.1, r2.2)

/-! ### The id registry (lines 23-37, 64-81) and `generateUniqueId` -/

/-- The module-level registry (`registeredIds`, `autoIdCounter`) together
with the set of element ids present in the live document
(`document.getElementById`). -/
structure RegistryState where
  registeredIds : Finset String
  autoIdCounter : Nat
  domIds : Finset String

/-- `'0' + d`: the decimal digit character. -/
def digitChar (d : Nat) : Char := Char.ofNat (48 + d)

/-- Decimal digit list of a natural number (most significant first), as
produced by the template literal `${autoIdCounter}`. -/
def natDecimalAux (n : Nat) (acc : List Char) : List Char :=
  if n < 10 then digitChar n :: acc
  else natDecimalAux (n / 10) (digitChar (n % 10) :: acc)
termination_by n
decreasing_by exact Nat.div_lt_self (by omega) (by omega)

def natDecimal (n : Nat) : List Char := natDecimalAux n []

/-- The template literal `` `ace-editor-${n}` ``. -/
def mkId (n : Nat) : String := "ace-editor-" ++ ⟨natDecimal n⟩

/-- Value of a digit list (inverse of `natDecimal`). -/
def decVal (l : List Char) : Nat := l.foldl (fun a c => 10 * a + (c.toNat - 48)) 0

/-- The body of the `do`/`while` loop of `generateUniqueId`: increment the
counter, form the id, repeat while the registry or the document already
contains it.  The fuel only bounds the number of iterations; the fuel used
by `generateUniqueId` exceeds the number of occupied ids, and since the
candidate ids are pairwise distinct (`mkId_inj`) the loop always stops at a
free id before the fuel runs out. -/
def genLoop : Nat → RegistryState → Nat × RegistryState
  | 0, st =>
      let n := st.autoIdCounter + 1
      (n, { st with autoIdCounter := n })
  | fuel+1, st =>
      let n := st.autoIdCounter + 1
      let st1 : RegistryState := { st with autoIdCounter := n }
      if mkId n ∈ st.registeredIds ∨ mkId n ∈ st.domIds then genLoop fuel st1
      else (n, st1)

/-- `generateUniqueId` (lines 30-37): the do/while search for the first
counter value whose id is neither registered nor present in the document. -/
def generateUniqueId (st : RegistryState) : Nat × RegistryState :=
  genLoop (st.registeredIds.card + st.domIds.card + 1) st

/-- `registerEditorId` (lines 64-73): throws on a duplicate, else adds. -/
def registerEditorId (id : String) (registeredIds : Finset String) :
    Except String (Finset String) :=
  if id ∈ registeredIds then
    Except.error ("❌ Duplicate ace-editor ID detected: \"" ++ id ++ "\". " ++
      "Each ace-editor must have a unique ID. " ++
      "Either remove the duplicate ID or let the component auto-generate unique IDs.")
  else Except.ok (insert id registeredIds)

/-- `unregisterEditorId` (lines 79-81). -/
def unregisterEditorId (id : String) (registeredIds : Finset String) : Finset String :=
  registeredIds.erase id

/-- The registry effect of `disconnectedCallback` (lines 722-738):
`if (this.id) unregisterEditorId(this.id)`. -/
def disconnectRegistry (id : String) (registeredIds : Finset String) : Finset String :=
  if id ≠ "" then unregisterEditorId id registeredIds else registeredIds

/-- Attach / detach operations interleaved with auto-id generation. -/
inductive RegOp
  | attachAuto
  | attachWith (id : String)
  | detach (id : String)

/-- One registry operation.  `attachAuto` is `connectedCallback` with no
explicit id: generate, register, and the element (now carrying the id)
lives in the document.  `attachWith` is `connectedCallback` with an
explicit id: on a duplicate the error leaves the registry unchanged, but
the element itself is in the document either way.  `detach` is
`disconnectedCallback`: unregister and leave the document. -/
def regStep (st : RegistryState) : RegOp → RegistryState × List String
  | RegOp.attachAuto =>
      let r := generateUniqueId st
      let id := mkId r.1
      ({ r.2 with registeredIds := insert id r.2.registeredIds,
                  domIds := insert id r.2.domIds }, [id])
  | RegOp.attachWith id =>
      match registerEditorId id st.registeredIds with
      | Except.ok regs => ({ st with registeredIds := regs, domIds := insert id st.domIds }, [])
      | Except.error _ => ({ st with domIds := insert id st.domIds }, [])
  | RegOp.detach id =>
      ({ st with registeredIds := disconnectRegistry id st.registeredIds,
                 domIds := st.domIds.erase id }, [])

/-- Run a sequence of operations, collecting the generated ids in order. -/
def runRegOps : RegistryState → List RegOp → RegistryState × List String
  | st, [] => (st, [])
  | st, op :: ops =>
      let r1 := regStep st op
      let r2 := runRegOps r1.1 ops
      (r2.1, r1.2 ++ r2.2)

/-! ### Initial-content source selection (`initializeEditor`, lines 465-503)

```
if (typeof this.initialContent !== "string" || !this.initialContent) this.initialContent = "";
const value = this.getAttribute("value");
if (typeof value === "string" && value) { this.initialContent = value; }
else {
  const scriptTag = this.querySelector("script");
  if (scriptTag) {
    if (typeof scriptTag.textContent === "string" && scriptTag.textContent)
      this.initialContent = scriptTag.textContent;
  } else {
    const content = this.getAttribute("content");
    if (typeof this.textContent === "string" && this.textContent)
      this.initialContent = this.textContent;
    else if (typeof content === "string" && content)
      this.initialContent = content;
  }
  if (!this.initialContent) this.initialContent = "";
  ...entity decoding of the selected static content...
}
```
`getAttribute` returns `null` for a missing attribute (`Option String`);
`querySelector("script")` is `none` when no script tag is nested, otherwise
`some` of the tag's text; `this.textContent` is always a string. -/

structure InitAttrs where
  valueAttr : Option String
  scriptTag : Option String
  textContent : String
  contentAttr : Option String

/-- The fallback chain of the `else` branch (sources 2-4).  `init0` is the
value `this.initialContent` holds after the line-467 normalisation — `""`
for a fresh instance. -/
def selectFallback (init0 : String) (a : InitAttrs) : String :=
  match a.scriptTag with
  | some t => if t ≠ "" then t else init0
  | none =>
      if a.textContent ≠ "" then a.textContent
      else
        match a.contentAttr with
        | some c => if c ≠ "" then c else init0
        | none => init0

/-- The whole selection chain of lines 467-495 (before entity decoding and
dedent). -/
def selectContent (init0 : String) (a : InitAttrs) : String :=
  match a.valueAttr with
  | some v => if v ≠ "" then v else selectFallback init0 a
  | none => selectFallback init0 a

/-- The selection rule exactly as the claim words it: the first non-empty
source in the order value attribute, script-tag text, own text content,
content attribute; empty if all are empty. -/
def selectContentClaim (a : InitAttrs) : String :=
  if a.valueAttr.getD "" ≠ "" then a.valueAttr.getD ""
  else if a.scriptTag.getD "" ≠ "" then a.scriptTag.getD ""
  else if a.textContent ≠ "" then a.textContent
  else if a.contentAttr.getD "" ≠ "" then a.contentAttr.getD ""
  else ""

/-- The amended selection rule: as the claim, except that a present script
tag always settles sources 2-4 — its text when non-empty, the empty string
otherwise — so the text content and the content attribute are consulted
only when no script tag is nested. -/
def selectContentAmended (a : InitAttrs) : String :=
  if a.valueAttr.getD "" ≠ "" then a.valueAttr.getD ""
  else
    match a.scriptTag with
    | some t => t
    | none =>
        if a.textContent ≠ "" then a.textContent
        else if a.contentAttr.getD "" ≠ "" then a.contentAttr.getD ""
        else ""

/-! ### The component after `initializeEditor`: value/readonly
synchronization (lines 362-665, 668-720, 740-797)

The engine (the Ace editor instance) is opaque: the component uses it only
through `getValue`/`setValue`/`getReadOnly`/`setReadOnly`, so it is a
content string and a read-only flag.  The session `change` handler fires
synchronously inside an engine `setValue`; its only externally visible
effect modelled here is the `input` event dispatch (the height update is
layout, not state).  Cursor bookkeeping (`getCursorPosition`,
`moveCursorToPosition`, `clearSelection`) does not affect any modelled
field and is omitted. -/

structure EngineState where
  content : String
  readOnly : Bool

inductive OutEv
  | input

structure CompState where
  editor : Option EngineState
  pendingValue : Option String
  isProgrammaticChange : Bool
  initialContent : String

/-- The `session.on("change")` handler (lines 574-582), minus the height
update: dispatch `input` unless a programmatic change is in progress. -/
def sessionChangeEvents (s : CompState) : List OutEv :=
  if s.isProgrammaticChange then [] else [OutEv.input]

/-- An engine `setValue` call: the engine replaces its content and fires
the session `change` handler synchronously. -/
def engineSetValue (s : CompState) (e : EngineState) (v : String) :
    CompState × List OutEv :=
  ({ s with editor := some { e with content := v } }, sessionChangeEvents s)

/-- The `value` property setter (lines 777-797).  `const currentValue =
this.editor.value` reads a property the Ace editor object does not have, so
`currentValue` is `undefined` and `value !== currentValue` holds for every
string: the write always happens.  The `setTimeout(..., 0)` resetting
`_isProgrammaticChange` runs on a later tick (`timerReset`), so within the
current tick the flag stays set. -/
def setValueProp (s : CompState) (v : String) : CompState × List OutEv :=
  match s.editor with
  | some e =>
      let s1 : CompState := { s with isProgrammaticChange := true }
      let r := engineSetValue s1 e v
      ({ r.1 with pendingValue := none }, r.2)
  | none => ({ s with initialContent := v }, [])

/-- The `value` property getter (lines 761-763):
`this.editor ? this.editor.getValue() : ""`. -/
def getValueProp (s : CompState) : String :=
  match s.editor with
  | some e => e.content
  | none => ""

/-- The `setTimeout` callback clearing `_isProgrammaticChange`, delivered
on a later macrotask tick. -/
def timerReset (s : CompState) : CompState := { s with isProgrammaticChange := false }

/-- A user edit delivered by the engine: the engine rejects user input in
read-only mode; otherwise the content changes and the session `change`
handler fires with whatever flag state is current. -/
def userEdit (s : CompState) (v : String) : CompState × List OutEv :=
  match s.editor with
  | some e =>
      if e.readOnly then (s, [])
      else ({ s with editor := some { e with content := v } }, sessionChangeEvents s)
  | none => (s, [])

/-- `attributeChangedCallback`, `case "value"` (lines 668-688): bail out
with no editor; store the raw new value as pending while read-only; else
clear pending and write the value (`newValue || ""`) when it differs from
the engine content. -/
def attrValueChanged (s : CompState) (newValue : Option String) :
    CompState × List OutEv :=
  match s.editor with
  | none => (s, [])
  | some e =>
      if e.readOnly then ({ s with pendingValue := newValue }, [])
      else
        let s1 : CompState := { s with pendingValue := none }
        if some e.content = newValue then (s1, [])
        else engineSetValue s1 e (newValue.getD "")

/-- `attributeChangedCallback`, `case "readonly"` (lines 695-711):
presence semantics (`newValue !== null`), then — when read-only was just
cleared and a pending value exists — write the pending value and null it. -/
def attrReadonlyChanged (s : CompState) (newValue : Option String) :
    CompState × List OutEv :=
  match s.editor with
  | none => (s, [])
  | some e =>
      let isRo := newValue.isSome
      let e1 : EngineState := { e with readOnly := isRo }
      let s1 : CompState := { s with editor := some e1 }
      if isRo then (s1, [])
      else
        match s1.pendingValue with
        | some pv =>
            let r := engineSetValue s1 e1 pv
            ({ r.1 with pendingValue := none }, r.2)
        | none => (s1, [])

/-- `disconnectedCallback` effect on the modelled component state:
`this.editor = null` (the registry effect is `disconnectRegistry`). -/
def detachComp (s : CompState) : CompState := { s with editor := none }

inductive CompAct
  | attrValue (newValue : Option String)
  | attrReadonly (newValue : Option String)
  | setProp (v : String)
  | user (v : String)
  | timer
  | detach

def compStep (s : CompState) : CompAct → CompState
  | CompAct.attrValue v => (attrValueChanged s v).1
  | CompAct.attrReadonly v => (attrReadonlyChanged s v).1
  | CompAct.setProp v => (setValueProp s v).1
  | CompAct.user v => (userEdit s v).1
  | CompAct.timer => timerReset s
  | CompAct.detach => detachComp s

def runComp (s : CompState) (acts : List CompAct) : CompState :=
  acts.foldl compStep s

/-- The state right after `initializeEditor` finishes: the editor exists
with the resolved initial content and the initial read-only flag,
`_pendingValue` is `null`, `_isProgrammaticChange` is `false`. -/
def initComp (content : String) (ro : Bool) : CompState :=
  { editor := some { content := content, readOnly := ro },
    pendingValue := none, isProgrammaticChange := false,
    initialContent := content }

/-- The claimed invariant: while the editor handle exists, a non-null
pending value implies the engine is read-only. -/
def PendingInv (s : CompState) : Prop :=
  ∀ e, s.editor = some e → s.pendingValue ≠ none → e.readOnly = true

/-! ### Theorems -/

theorem replaceLtScan_cons_ne (c : Char) (rest : List Char)
    (h : ∀ r, c = '&' → rest = 'l' :: 't' :: ';' :: r → False) :
    replaceLtScan (c :: rest) = c :: replaceLtScan rest := by
  rw [replaceLtScan.eq_def]
  split
  · rename_i r heq
    injection heq with h1 h2
    exact (h r h1 h2).elim
  · rename_i c2 r2 hne heq
    injection heq with h1 h2
    subst h1; subst h2; rfl
  · rename_i heq; simp at heq

theorem tokLen (t : List Char) (ht : t ∈ entityTokens) : 4 ≤ t.length := by
  fin_cases ht <;> decide

theorem regexScanFuel_eq (fuel : Nat) (l : List Char) (hl : l.length ≤ fuel) :
    regexScanFuel fuel l = replaceLtScan l := by
  induction fuel generalizing l with
  | zero =>
    have hnil : l = [] := List.length_eq_zero.mp (Nat.le_zero.mp hl)
    subst hnil; rfl
  | succ fuel IH =>
    match l with
    | [] => rfl
    | c :: rest =>
      simp only [List.length_cons] at hl
      rw [regexScanFuel]
      cases hft : findTok (c :: rest) with
      | some t =>
        dsimp only
        have ht : t ∈ entityTokens := List.mem_of_find?_eq_some hft
        have htake : (c :: rest).take t.length = t := by
          simpa using List.find?_some hft
        have hsplit := List.take_append_drop t.length (c :: rest)
        rw [htake] at hsplit
        have h4 : 4 ≤ t.length := tokLen t ht
        have hdlen : ((c :: rest).drop t.length).length ≤ fuel := by
          simp only [List.length_drop, List.length_cons]
          omega
        rw [IH _ hdlen]
        generalize hd : (c :: rest).drop t.length = d at hsplit ⊢
        rw [← hsplit]
        fin_cases ht <;> simp [entityReplacement, replaceLtScan]
      | none =>
        dsimp only
        have hnolt : ∀ r, c = '&' → rest = 'l' :: 't' :: ';' :: r → False := by
          intro r hc hr
          subst hc; subst hr
          have hm := List.find?_eq_none.mp hft ['&', 'l', 't', ';'] (by simp [entityTokens])
          simp at hm
        rw [replaceLtScan_cons_ne c rest hnolt]
        exact congrArg (c :: ·) (IH rest (by omega))

theorem unescape_eq_replaceLtOnly (s : String) :
    unescapeHtmlEntities s = replaceLtOnly s :=
  congrArg String.mk (regexScanFuel_eq s.data.length s.data le_rfl)

theorem dedentDiff_foldl (lines : List (List Char)) (a : Nat) :
    lines.foldl
      (fun diff line =>
        if !isBlankLine line then
          (if leadingWsCount line < diff then leadingWsCount line else diff)
        else diff) a =
      (match minIndentSpec lines with
       | none => a
       | some m => min a m) := by
  induction lines generalizing a with
  | nil => rfl
  | cons line rest IH =>
    by_cases hb : isBlankLine line
    · simp only [List.foldl_cons, minIndentSpec, hb]
      simp only [Bool.not_true, Bool.false_eq_true, if_false, if_true]
      rw [IH a]
    · simp only [List.foldl_cons, minIndentSpec, hb]
      simp only [Bool.not_false, Bool.false_eq_true, if_false, if_true]
      rw [IH (if leadingWsCount line < a then leadingWsCount line else a)]
      have hmin : (if leadingWsCount line < a then leadingWsCount line else a)
          = min a (leadingWsCount line) := by
        split <;> omega
      rw [hmin]
      cases minIndentSpec rest with
      | none => dsimp only
      | some m => dsimp only; rw [Nat.min_assoc]

theorem minIndentSpec_mem (lines : List (List Char)) (m : Nat)
    (h : minIndentSpec lines = some m) :
    ∃ line ∈ lines, leadingWsCount line = m := by
  induction lines generalizing m with
  | nil => simp [minIndentSpec] at h
  | cons line rest IH =>
    by_cases hb : isBlankLine line
    · simp only [minIndentSpec, hb, if_true] at h
      obtain ⟨l, hl, hlw⟩ := IH m h
      exact ⟨l, List.mem_cons_of_mem _ hl, hlw⟩
    · simp only [minIndentSpec, hb, if_false] at h
      cases hr : minIndentSpec rest with
      | none =>
        rw [hr] at h
        injection h with h
        exact ⟨line, List.mem_cons_self _ _, h⟩
      | some m2 =>
        rw [hr] at h
        injection h with h
        rcases min_cases (leadingWsCount line) m2 with ⟨heq, -⟩ | ⟨heq, -⟩
        · exact ⟨line, List.mem_cons_self _ _, by omega⟩
        · obtain ⟨l, hl, hlw⟩ := IH m2 hr
          exact ⟨l, List.mem_cons_of_mem _ hl, by omega⟩

theorem takeWhile_length_le (p : Char → Bool) (l : List Char) :
    (l.takeWhile p).length ≤ l.length := by
  induction l with
  | nil => simp
  | cons c cs IH =>
    by_cases hc : p c <;> simp [List.takeWhile_cons, hc] <;> omega

theorem leadingWsCount_le (line : List Char) : leadingWsCount line ≤ line.length :=
  takeWhile_length_le jsWhitespace line

/-- `dedent` agrees with the amended specification on every text whose lines
are shorter than `Number.MAX_SAFE_INTEGER` (every actual JS string is). -/
theorem dedent_eq_spec (s : String)
    (hb : ∀ line ∈ splitOnNl s.data, line.length < MAX_SAFE_INTEGER) :
    dedent s = dedentSpecAmended s := by
  have hdd : dedentDiff (splitOnNl s.data)
      = (match minIndentSpec (splitOnNl s.data) with
         | none => MAX_SAFE_INTEGER
         | some m => min MAX_SAFE_INTEGER m) :=
    dedentDiff_foldl (splitOnNl s.data) MAX_SAFE_INTEGER
  simp only [dedent, dedentSpecAmended]
  cases hm : minIndentSpec (splitOnNl s.data) with
  | none =>
    rw [hm] at hdd
    dsimp only at hdd
    rw [hdd, if_neg (fun h => h.1 rfl)]
  | some m =>
    rw [hm] at hdd
    dsimp only at hdd
    obtain ⟨line, hline, hlws⟩ := minIndentSpec_mem _ _ hm
    have hmlt : m < MAX_SAFE_INTEGER :=
      lt_of_le_of_lt (hlws ▸ leadingWsCount_le line) (hb line hline)
    have hminm : min MAX_SAFE_INTEGER m = m := by omega
    rw [hminm] at hdd
    rw [hdd]
    cases m with
    | zero => simp
    | succ k =>
      rw [if_pos ⟨by omega, by omega⟩]
      rfl

theorem loadAceEditor_cached (st : LoaderState) (p : Nat)
    (h : st.aceEditorPromise = some p) : loadAceEditor st = (p, st) := by
  unfold loadAceEditor
  rw [h]

theorem callLoader_cached (st : LoaderState) (p : Nat) (n : Nat)
    (h : st.aceEditorPromise = some p) :
    callLoader st n = (List.replicate n p, st) := by
  induction n with
  | zero => rfl
  | succ n IH =>
    rw [callLoader, loadAceEditor_cached st p h]
    rw [IH]
    simp [List.replicate_succ]

theorem natDecimalAux_append (n : Nat) (acc : List Char) :
    natDecimalAux n acc = natDecimalAux n [] ++ acc := by
  induction n using Nat.strong_induction_on generalizing acc with
  | _ n IH =>
    by_cases h : n < 10
    · rw [natDecimalAux]
      conv_rhs => rw [natDecimalAux]
      simp [h]
    · rw [natDecimalAux]
      conv_rhs => rw [natDecimalAux]
      rw [if_neg h, if_neg h]
      have hlt : n / 10 < n := Nat.div_lt_self (by omega) (by omega)
      rw [IH (n / 10) hlt (digitChar (n % 10) :: acc),
          IH (n / 10) hlt (digitChar (n % 10) :: [])]
      simp

theorem digitChar_toNat (d : Nat) (h : d < 10) : (digitChar d).toNat = 48 + d := by
  interval_cases d <;> decide

theorem decVal_append_digit (xs : List Char) (c : Char) :
    decVal (xs ++ [c]) = 10 * decVal xs + (c.toNat - 48) := by
  unfold decVal
  rw [List.foldl_append]
  rfl

theorem decVal_natDecimal (n : Nat) : decVal (natDecimal n) = n := by
  induction n using Nat.strong_induction_on with
  | _ n IH =>
    by_cases h : n < 10
    · rw [natDecimal, natDecimalAux, if_pos h]
      unfold decVal
      simp [digitChar_toNat n h]
    · rw [natDecimal, natDecimalAux, if_neg h]
      rw [natDecimalAux_append]
      rw [decVal_append_digit]
      rw [show natDecimalAux (n / 10) [] = natDecimal (n / 10) from rfl]
      rw [IH (n / 10) (Nat.div_lt_self (by omega) (by omega))]
      rw [digitChar_toNat (n % 10) (Nat.mod_lt n (by omega))]
      omega

theorem mkId_inj (a b : Nat) (h : mkId a = mkId b) : a = b := by
  have hdata : "ace-editor-".data ++ natDecimal a
      = "ace-editor-".data ++ natDecimal b := by
    have hd := congrArg String.data h
    simpa [mkId, String.data_append] using hd
  have hdec := List.append_cancel_left hdata
  have := congrArg decVal hdec
  rwa [decVal_natDecimal, decVal_natDecimal] at this

theorem genLoop_counter (fuel : Nat) (st : RegistryState) :
    (genLoop fuel st).1 = (genLoop fuel st).2.autoIdCounter ∧
    st.autoIdCounter < (genLoop fuel st).1 ∧
    (genLoop fuel st).2.registeredIds = st.registeredIds ∧
    (genLoop fuel st).2.domIds = st.domIds := by
  induction fuel generalizing st with
  | zero => exact ⟨rfl, Nat.lt_succ_self _, rfl, rfl⟩
  | succ fuel IH =>
    rw [genLoop]
    split
    · obtain ⟨h1, h2, h3, h4⟩ := IH { st with autoIdCounter := st.autoIdCounter + 1 }
      have h5 : ({ st with autoIdCounter := st.autoIdCounter + 1 } : RegistryState).autoIdCounter
          = st.autoIdCounter + 1 := rfl
      exact ⟨h1, by omega, h3, h4⟩
    · exact ⟨rfl, Nat.lt_succ_self _, rfl, rfl⟩

theorem generateUniqueId_counter (st : RegistryState) :
    (generateUniqueId st).1 = (generateUniqueId st).2.autoIdCounter ∧
    st.autoIdCounter < (generateUniqueId st).1 :=
  ⟨(genLoop_counter _ st).1, (genLoop_counter _ st).2.1⟩

theorem regStep_counter_mono (st : RegistryState) (op : RegOp) :
    st.autoIdCounter ≤ (regStep st op).1.autoIdCounter := by
  cases op with
  | attachAuto =>
    obtain ⟨h1, h2⟩ := generateUniqueId_counter st
    have h3 : (regStep st RegOp.attachAuto).1.autoIdCounter
        = (generateUniqueId st).2.autoIdCounter := rfl
    omega
  | attachWith id =>
    simp only [regStep]
    cases hreg : registerEditorId id st.registeredIds <;> simp
  | detach id => simp [regStep]

theorem runRegOps_counter_mono (st : RegistryState) (ops : List RegOp) :
    st.autoIdCounter ≤ (runRegOps st ops).1.autoIdCounter := by
  induction ops generalizing st with
  | nil => exact le_rfl
  | cons op ops IH =>
    rw [runRegOps]
    exact le_trans (regStep_counter_mono st op) (IH (regStep st op).1)

theorem runRegOps_gen_ids (st : RegistryState) (ops : List RegOp) :
    ∀ id ∈ (runRegOps st ops).2,
      ∃ n, id = mkId n ∧ st.autoIdCounter < n ∧ n ≤ (runRegOps st ops).1.autoIdCounter := by
  induction ops generalizing st with
  | nil => intro id h; simp [runRegOps] at h
  | cons op ops IH =>
    intro id hid
    rw [runRegOps] at hid ⊢
    rw [List.mem_append] at hid
    cases hid with
    | inl h1 =>
      cases op with
      | attachAuto =>
        simp only [regStep, List.mem_singleton] at h1
        subst h1
        obtain ⟨hc, hlt⟩ := generateUniqueId_counter st
        refine ⟨(generateUniqueId st).1, rfl, hlt, ?_⟩
        calc (generateUniqueId st).1
            = (generateUniqueId st).2.autoIdCounter := hc
          _ = (regStep st RegOp.attachAuto).1.autoIdCounter := rfl
          _ ≤ (runRegOps (regStep st RegOp.attachAuto).1 ops).1.autoIdCounter :=
              runRegOps_counter_mono _ ops
      | attachWith i =>
        simp only [regStep] at h1
        cases hreg : registerEditorId i st.registeredIds <;> rw [hreg] at h1 <;> simp at h1
      | detach i =>
        simp only [regStep] at h1
        simp at h1
    | inr h2 =>
      obtain ⟨n, hn, hlt, hle⟩ := IH (regStep st op).1 id h2
      exact ⟨n, hn, lt_of_le_of_lt (regStep_counter_mono st op) hlt, hle⟩

theorem regStep_gen_le (st : RegistryState) (op : RegOp) :
    ∀ id ∈ (regStep st op).2,
      ∃ n, id = mkId n ∧ st.autoIdCounter < n ∧ n ≤ (regStep st op).1.autoIdCounter := by
  intro id hid
  cases op with
  | attachAuto =>
    simp only [regStep, List.mem_singleton] at hid
    subst hid
    obtain ⟨hc, hlt⟩ := generateUniqueId_counter st
    exact ⟨(generateUniqueId st).1, rfl, hlt, hc.le⟩
  | attachWith i =>
    simp only [regStep] at hid
    cases hreg : registerEditorId i st.registeredIds <;> rw [hreg] at hid <;> simp at hid
  | detach i =>
    simp only [regStep] at hid
    simp at hid

theorem runRegOps_nodup (st : RegistryState) (ops : List RegOp) :
    ((runRegOps st ops).2).Nodup := by
  induction ops generalizing st with
  | nil => exact List.nodup_nil
  | cons op ops IH =>
    rw [runRegOps]
    rw [List.nodup_append]
    refine ⟨?_, IH (regStep st op).1, ?_⟩
    · cases op with
      | attachAuto => simp [regStep]
      | attachWith i =>
        simp only [regStep]
        cases hreg : registerEditorId i st.registeredIds <;> simp
      | detach i => simp [regStep]
    · intro a ha hb
      obtain ⟨n1, hn1, -, hle1⟩ := regStep_gen_le st op a ha
      obtain ⟨n2, hn2, hlt2, -⟩ := runRegOps_gen_ids (regStep st op).1 ops a hb
      have heq : n1 = n2 := mkId_inj n1 n2 (hn1.symm.trans hn2)
      omega

theorem selectContent_eq_amended (a : InitAttrs) :
    selectContent "" a = selectContentAmended a := by
  obtain ⟨v, t, tc, c⟩ := a
  cases v with
  | none =>
    cases t with
    | none =>
      cases c with
      | none => simp [selectContent, selectFallback, selectContentAmended]
      | some cv =>
        by_cases hc : cv = "" <;>
          simp [selectContent, selectFallback, selectContentAmended, hc]
    | some tv =>
      by_cases ht : tv = "" <;>
        simp [selectContent, selectFallback, selectContentAmended, ht]
  | some vv =>
    by_cases hv : vv = ""
    · cases t with
      | none =>
        cases c with
        | none => simp [selectContent, selectFallback, selectContentAmended, hv]
        | some cv =>
          by_cases hc : cv = "" <;>
            simp [selectContent, selectFallback, selectContentAmended, hv, hc]
      | some tv =>
        by_cases ht : tv = "" <;>
          simp [selectContent, selectFallback, selectContentAmended, hv, ht]
    · simp [selectContent, selectFallback, selectContentAmended, hv]

theorem compStep_pendingInv (s : CompState) (a : CompAct)
    (h : PendingInv s) : PendingInv (compStep s a) := by
  cases a with
  | attrValue v =>
    intro e he hp
    simp only [compStep, attrValueChanged] at he hp
    cases hse : s.editor with
    | none => rw [hse] at he hp; exact h e (hse.symm ▸ he) hp
    | some e0 =>
      rw [hse] at he hp
      by_cases hro : e0.readOnly
      · simp only [hro, if_true] at he hp
        injection he with he
        subst he
        exact hro
      · simp only [hro, if_false] at he hp
        by_cases heq : some e0.content = v
        · simp only [heq, if_true] at he hp
          exact absurd rfl hp
        · simp only [heq, if_false] at he hp
          simp only [engineSetValue] at he hp
          exact absurd rfl hp
  | attrReadonly v =>
    intro e he hp
    simp only [compStep, attrReadonlyChanged] at he hp
    cases hse : s.editor with
    | none => rw [hse] at he hp; exact h e (hse.symm ▸ he) hp
    | some e0 =>
      rw [hse] at he hp
      cases v with
      | some rv =>
        simp only [Option.isSome_some, if_true] at he hp
        injection he with he
        subst he
        rfl
      | none =>
        simp only [Option.isSome_none, Bool.false_eq_true, if_false] at he hp
        cases hpv : s.pendingValue with
        | some pv =>
          rw [hpv] at he hp
          simp only [engineSetValue] at he hp
          exact absurd rfl hp
        | none =>
          rw [hpv] at he hp
          exact absurd rfl hp
  | setProp v =>
    intro e he hp
    simp only [compStep, setValueProp] at he hp
    cases hse : s.editor with
    | none => rw [hse] at he hp; exact h e (hse.symm ▸ he) hp
    | some e0 =>
      rw [hse] at he hp
      simp only [engineSetValue] at he hp
      exact absurd rfl hp
  | user v =>
    intro e he hp
    simp only [compStep, userEdit] at he hp
    cases hse : s.editor with
    | none => rw [hse] at he hp; exact h e (hse.symm ▸ he) hp
    | some e0 =>
      rw [hse] at he hp
      by_cases hro : e0.readOnly
      · simp only [hro, if_true] at he hp
        exact h e (hse.symm ▸ he) hp
      · simp only [hro, Bool.false_eq_true, if_false] at he hp
        exact absurd (h e0 hse hp) hro
  | timer =>
    intro e he hp
    exact h e he hp
  | detach =>
    intro e he hp
    simp only [compStep, detachComp] at he
    exact absurd he (by simp)

theorem runComp_pendingInv (s : CompState) (acts : List CompAct)
    (h : PendingInv s) : PendingInv (runComp s acts) := by
  induction acts generalizing s with
  | nil => exact h
  | cons a acts IH => exact IH (compStep s a) (compStep_pendingInv s a h)

theorem initComp_pendingInv (content : String) (ro : Bool) :
    PendingInv (initComp content ro) := by
  intro e he hp
  exact absurd rfl hp

/-! ### The claims -/

/-- C1: for every number N ≥ 1 of component instances calling the loader in
the same synchronous turn (no promise cached before the
first), exactly one script element is appended per process lifetime and
every call returns the same promise (hence the same engine handle). -/
theorem claim_C1_singleton_loader (st : LoaderState) (n : Nat)
    (hfresh : st.aceEditorPromise = none) (hn : 0 < n) :
    (callLoader st n).2.scriptsAppended = st.scriptsAppended + 1 ∧
    (callLoader st n).1.length = n ∧
    ∀ p ∈ (callLoader st n).1, p = st.nextPromiseId := by
  obtain ⟨m, rfl⟩ : ∃ m, n = m + 1 := ⟨n - 1, by omega⟩
  rw [callLoader]
  have h1 : loadAceEditor st
      = (st.nextPromiseId,
         { aceEditorPromise := some st.nextPromiseId,
           scriptsAppended := st.scriptsAppended + 1,
           nextPromiseId := st.nextPromiseId + 1 }) := by
    unfold loadAceEditor
    rw [hfresh]
  rw [h1, callLoader_cached _ st.nextPromiseId m rfl]
  refine ⟨rfl, by simp, ?_⟩
  intro p hp
  rw [List.mem_cons] at hp
  cases hp with
  | inl h => exact h
  | inr h => exact List.eq_of_mem_replicate h

theorem claim_C1_witness :
    (callLoader ⟨none, 0, 0⟩ 3).2.scriptsAppended = 0 + 1 ∧
    (callLoader ⟨none, 0, 0⟩ 3).1.length = 3 ∧
    ∀ p ∈ (callLoader ⟨none, 0, 0⟩ 3).1, p = 0 :=
  claim_C1_singleton_loader ⟨none, 0, 0⟩ 3 rfl (by decide)

/-- C2: (1) in every state reachable from initialization, a non-null
`_pendingValue` implies the engine is read-only; (2) a value-attribute
change while read-only stores the value as pending, leaves the engine
untouched and dispatches nothing; (3) a readonly-attribute removal with a
pending value writes it into the engine and nulls the pending slot. -/
theorem claim_C2_pending_invariant :
    (∀ content ro acts, PendingInv (runComp (initComp content ro) acts)) ∧
    (∀ s e v, s.editor = some e → e.readOnly = true →
      (attrValueChanged s (some v)).1.pendingValue = some v ∧
      (attrValueChanged s (some v)).1.editor = s.editor ∧
      (attrValueChanged s (some v)).2 = []) ∧
    (∀ s e pv, s.editor = some e → s.pendingValue = some pv →
      (attrReadonlyChanged s none).1.editor
        = some { content := pv, readOnly := false } ∧
      (attrReadonlyChanged s none).1.pendingValue = none) := by
  refine ⟨fun content ro acts =>
    runComp_pendingInv _ _ (initComp_pendingInv content ro), ?_, ?_⟩
  · intro s e v he hro
    simp [attrValueChanged, he, hro]
  · intro s e pv he hpv
    simp only [attrReadonlyChanged, he, Option.isSome_none, Bool.false_eq_true,
      if_false, engineSetValue]
    constructor
    · rw [show ({ s with editor := some { e with readOnly := false } } : CompState).pendingValue
          = some pv from hpv]
    · rw [show ({ s with editor := some { e with readOnly := false } } : CompState).pendingValue
          = some pv from hpv]

theorem claim_C2_witness :
    PendingInv (runComp (initComp ("c") true) [CompAct.attrValue (some ("y"))]) ∧
    (attrValueChanged (initComp ("c") true) (some ("v"))).1.pendingValue = some ("v") ∧
    (attrReadonlyChanged { initComp ("c") true with pendingValue := some ("pv") } none).1.editor
      = some { content := "pv", readOnly := false } :=
  ⟨claim_C2_pending_invariant.1 ("c") true _,
   (claim_C2_pending_invariant.2.1 _ _ ("v") rfl rfl).1,
   (claim_C2_pending_invariant.2.2 _ _ ("pv") rfl rfl).1⟩

/-- C3: the `value` setter never dispatches `input` synchronously, and
leaves `_isProgrammaticChange` set for the rest of the tick (so a change
handler firing later in the same tick is also suppressed); a session change
firing while no programmatic write is in progress always dispatches
`input`. -/
theorem claim_C3_suppression :
    (∀ s v, s.editor.isSome = true →
      (setValueProp s v).2 = [] ∧
      (setValueProp s v).1.isProgrammaticChange = true) ∧
    (∀ s, s.isProgrammaticChange = false → sessionChangeEvents s = [OutEv.input]) := by
  constructor
  · intro s v hs
    obtain ⟨e, he⟩ := Option.isSome_iff_exists.mp hs
    simp [setValueProp, he, engineSetValue, sessionChangeEvents]
  · intro s h
    simp [sessionChangeEvents, h]

theorem claim_C3_witness :
    (setValueProp (initComp ("c") false) ("v")).2 = [] ∧
    (setValueProp (initComp ("c") false) ("v")).1.isProgrammaticChange = true ∧
    sessionChangeEvents (initComp ("c") false) = [OutEv.input] :=
  ⟨(claim_C3_suppression.1 (initComp ("c") false) ("v") rfl).1,
   (claim_C3_suppression.1 (initComp ("c") false) ("v") rfl).2,
   claim_C3_suppression.2 (initComp ("c") false) rfl⟩

/-- C4: on a component whose editor exists, setting the `value` property to
any string `x` — HTML-entity sequences included — and reading it back
returns exactly `x`: the programmatic write path applies no entity decoding
and no dedent. -/
theorem claim_C4_roundtrip (s : CompState) (v : String)
    (hs : s.editor.isSome = true) :
    getValueProp (setValueProp s v).1 = v := by
  obtain ⟨e, he⟩ := Option.isSome_iff_exists.mp hs
  simp [setValueProp, he, engineSetValue, getValueProp]

theorem claim_C4_witness :
    getValueProp (setValueProp (initComp ("") false) ("&lt;/script&gt;")).1
      = "&lt;/script&gt;" :=
  claim_C4_roundtrip (initComp ("") false) ("&lt;/script&gt;") rfl

/-- C5 counterexample: with a nested script tag whose text is empty and a
non-empty own text content, the code resolves the empty string while the
claim's first-non-empty rule resolves the text content. -/
theorem claim_C5_counterexample :
    selectContent ("")
        { valueAttr := none, scriptTag := some (""), textContent := "x",
          contentAttr := none } = "" ∧
    selectContentClaim
        { valueAttr := none, scriptTag := some (""), textContent := "x",
          contentAttr := none } = "x" ∧
    ("" : String) ≠ "x" :=
  ⟨rfl, rfl, by decide⟩

/-- C5 (amended): on a fresh instance the resolved source is the value
attribute when non-empty; otherwise, when a script tag is nested, its text
(so the empty string when that text is empty — sources 3 and 4 are not
consulted); otherwise the first non-empty of own text content and content
attribute; the empty string when everything is empty. -/
theorem claim_C5_selection (a : InitAttrs) :
    selectContent ("") a = selectContentAmended a :=
  selectContent_eq_amended a

/-- C6 counterexample: on `"  a\n \n    b"` the minimum indent over
non-blank lines is 2 and the code turns the 1-character blank line into the
empty string (`" ".substring(2)`), while the claim says a blank line
shorter than the minimum is left as-is. -/
theorem claim_C6_counterexample :
    dedent ("  a\n \n    b") = "a\n\n  b" ∧
    dedentClaim ("  a\n \n    b") = "a\n \n  b" ∧
    ("a\n\n  b" : String) ≠ "a\n \n  b" :=
  ⟨by decide, by decide, by decide⟩

/-- C6 (amended): the dedent pass removes from every line — blank lines
included, clamped at the line length — the minimum leading-whitespace
length over non-blank lines; with no non-blank line, or minimum zero, the
text is unchanged; the claim's concrete example holds. -/
theorem claim_C6_dedent :
    (∀ s : String, (∀ line ∈ splitOnNl s.data, line.length < MAX_SAFE_INTEGER) →
      dedent s = dedentSpecAmended s) ∧
    dedent ("  a\n    b\n") = "a\n  b\n" :=
  ⟨dedent_eq_spec, by decide⟩

theorem claim_C6_witness :
    (∀ line ∈ splitOnNl ("  a\n \n    b").data, line.length < MAX_SAFE_INTEGER) ∧
    dedent ("  a\n \n    b") = dedentSpecAmended ("  a\n \n    b") :=
  ⟨by decide, claim_C6_dedent.1 ("  a\n \n    b") (by decide)⟩

/-- C7: `unescapeHtmlEntities` replaces every `&lt;` with `<` and leaves
every other character sequence — the other six recognized tokens included —
unchanged; in particular `"&lt;/script&gt;"` maps to `"</script&gt;"`. -/
theorem claim_C7_unescape :
    (∀ s : String, unescapeHtmlEntities s = replaceLtOnly s) ∧
    unescapeHtmlEntities ("&lt;/script&gt;") = "</script&gt;" ∧
    unescapeHtmlEntities ("&gt;&amp;&quot;&#39;&#x27;&#x2F;")
      = "&gt;&amp;&quot;&#39;&#x27;&#x2F;" :=
  ⟨unescape_eq_replaceLtOnly, by decide, by decide⟩

/-- C8: across every finite sequence of attach/detach operations
interleaved with id generations — released ids included — the generated ids
are pairwise distinct and all of the form `ace-editor-N`. -/
theorem claim_C8_unique_ids (st : RegistryState) (ops : List RegOp) :
    ((runRegOps st ops).2).Nodup ∧
    ∀ id ∈ (runRegOps st ops).2, ∃ n, id = mkId n :=
  ⟨runRegOps_nodup st ops,
   fun id hid => (runRegOps_gen_ids st ops id hid).imp (fun n h => h.1)⟩

/-- C9: `registerEditorId` raises the duplicate-id error iff the id is
currently registered; `unregisterEditorId` is idempotent; detaching
unregisters the id, so re-registering that exact id afterwards succeeds. -/
theorem claim_C9_registry (id : String) (regs : Finset String) :
    ((∃ msg, registerEditorId id regs = Except.error msg) ↔ id ∈ regs) ∧
    unregisterEditorId id (unregisterEditorId id regs) = unregisterEditorId id regs ∧
    (id ≠ "" → registerEditorId id (disconnectRegistry id regs)
      = Except.ok (insert id (disconnectRegistry id regs))) := by
  refine ⟨?_, ?_, ?_⟩
  · constructor
    · rintro ⟨msg, hmsg⟩
      by_contra hmem
      simp [registerEditorId, hmem] at hmsg
    · intro hmem
      exact ⟨_, by rw [registerEditorId, if_pos hmem]⟩
  · simp [unregisterEditorId, Finset.erase_idem]
  · intro hid
    have hnm : id ∉ disconnectRegistry id regs := by
      simp [disconnectRegistry, hid, unregisterEditorId]
    simp [registerEditorId, hnm]

theorem claim_C9_witness :
    ("ed1" : String) ≠ "" ∧
    registerEditorId ("ed1") (disconnectRegistry ("ed1") {"ed1"})
      = Except.ok (insert ("ed1") (disconnectRegistry ("ed1") {"ed1"})) :=
  ⟨by decide, (claim_C9_registry ("ed1") {"ed1"}).2.2 (by decide)⟩

/-- C10: the `value` getter (and `getValue`) of an instance whose editor
handle is null returns the empty string rather than raising. -/
theorem claim_C10_getvalue (s : CompState) (h : s.editor = none) :
    getValueProp s = "" := by
  simp [getValueProp, h]

theorem claim_C10_witness :
    getValueProp { editor := none, pendingValue := none,
                   isProgrammaticChange := false, initialContent := "x" } = "" :=
  claim_C10_getvalue _ rfl

end AceWC
